import Mathlib

/-!
Shallow embedding of the `rust_routing` repository: the chain-coalescing
engine (`src/graph/src/lib.rs`) and the routing engine
(`src/route/src/isochrone.rs`, `src/route/src/bin/astar.rs`,
`src/route/src/bin/alt.rs`, `src/route/src/graph.rs`).

Conventions of the embedding:
* `i64` identifiers, costs and weights become `Int` (no arithmetic in the
  claims comes near the 64-bit boundary).
* `HashMap` becomes an association list with unique keys (`lookupA`,
  `insertA`, `eraseA`); `HashSet` becomes a duplicate-free `List Int`.
* Recursion that is not structurally decreasing in Rust
  (`ChainStorage::insert`, the Dijkstra / A* loops) takes an explicit fuel
  argument and returns `Option`; `none` covers fuel exhaustion and the
  Rust panics (`unwrap` / `expect` on a vertex missing from the graph),
  `some` is the value the Rust function returns.
* `BinaryHeap<VertexScore>` pops a maximal element of the reversed
  `total_cost` order, i.e. an element of minimal `total_cost`; the order
  among equal keys is unspecified in Rust, the embedding pops the leftmost
  minimal element (`popMin`).
* Euclidean distances in the routers are `f64` square roots truncated by
  `as i64` / `as u64`.  All coordinates in the embedded test graphs are
  integers, and for an integer `n` of this size `trunc (sqrt64 n)` equals
  `Nat.sqrt n` (an `f64` square root is correctly rounded, and for
  non-square `n` the real root is farther than half an ulp from every
  integer), so the embedding uses `Nat.sqrt` of the squared length.
-/

namespace RustRouting

/-! ## Association lists standing for HashMap, and list sets for HashSet -/

/-- `HashMap::get` on an association list with unique keys. -/
def lookupA {β : Type} : List (Int × β) → Int → Option β
  | [], _ => none
  | (k, v) :: rest, key => if key = k then some v else lookupA rest key

/-- `HashMap::insert`: replace the value at an existing key, else append. -/
def insertA {β : Type} : List (Int × β) → Int → β → List (Int × β)
  | [], key, val => [(key, val)]
  | (k, v) :: rest, key, val =>
    if key = k then (k, val) :: rest else (k, v) :: insertA rest key val

/-- `HashMap::remove`. -/
def eraseA {β : Type} : List (Int × β) → Int → List (Int × β)
  | [], _ => []
  | (k, v) :: rest, key => if key = k then rest else (k, v) :: eraseA rest key

/-- `HashSet::contains`. -/
def memS : List Int → Int → Bool
  | [], _ => false
  | x :: rest, a => if a = x then true else memS rest a

/-- `HashSet::insert` (no duplicates). -/
def insertS (s : List Int) (a : Int) : List Int :=
  if memS s a then s else s ++ [a]

/-! ## `src/graph/src/lib.rs`: road categories, attributes, node chains -/

/-- `RoadCat` from `src/graph/src/lib.rs`. -/
inductive RoadCat where
  | Motorway | Trunk | Primary | Secondary | Tertiary | Residential
  | Living | Unclassified | Road | Service | Cycleway | Footway
  | Pedestrian | Steps | Path | Track | Bridleway
  deriving DecidableEq, Repr

/-- `parse_road_cat`: the `highway` tag table. -/
def parseRoadCat : Option String → Option RoadCat
  | none => none
  | some s =>
    match s with
    | "bridleway"      => some RoadCat.Bridleway
    | "cycleway"       => some RoadCat.Cycleway
    | "footway"        => some RoadCat.Footway
    | "living_street"  => some RoadCat.Living
    | "motorway"       => some RoadCat.Motorway
    | "path"           => some RoadCat.Path
    | "pedestrian"     => some RoadCat.Pedestrian
    | "primary"        => some RoadCat.Primary
    | "primary_link"   => some RoadCat.Primary
    | "residential"    => some RoadCat.Residential
    | "road"           => some RoadCat.Road
    | "secondary"      => some RoadCat.Secondary
    | "secondary_link" => some RoadCat.Secondary
    | "service"        => some RoadCat.Service
    | "steps"          => some RoadCat.Steps
    | "tertiary"       => some RoadCat.Tertiary
    | "tertiary_link"  => some RoadCat.Tertiary
    | "track"          => some RoadCat.Track
    | "trunk"          => some RoadCat.Trunk
    | "trunk_link"     => some RoadCat.Trunk
    | "unclassified"   => some RoadCat.Unclassified
    | _ => none

/-- `OneWay` and its `From<Option<&str>>` parsing. -/
inductive OneWay where
  | No | Forward | Backward
  deriving DecidableEq, Repr

def OneWay.fromTag : Option String → OneWay
  | none => OneWay.No
  | some s => match s with
    | "yes" => OneWay.Forward
    | "-1" => OneWay.Backward
    | _ => OneWay.No

/-- `MaxSpeed(Option<u16>)`; `parse::<u16>` failures become `none`.
The embedding accepts decimal digit strings below `2^16` like Rust does. -/
def MaxSpeed := Option Nat
deriving instance DecidableEq, Repr for MaxSpeed

def maxSpeedFromTag : Option String → MaxSpeed
  | none => none
  | some s => match s.toNat? with
    | some n => if n < 65536 then some n else none
    | none => none

/-- `NodeChain` (the `visit_number`-free record of `src/graph/src/lib.rs`). -/
structure NodeChain where
  wayId : Option Int
  nodes : List Int
  category : RoadCat
  lanes : Nat
  oneway : OneWay
  maxspeed : MaxSpeed
  deriving DecidableEq, Repr

namespace NodeChain

/-- `NodeChain::ends`: `[nodes[0], nodes[len-1]]`.  Rust panics on an
empty chain; the embedding returns `(0, 0)` there, and every theorem that
touches `ends` assumes the chain is nonempty. -/
def ends (nc : NodeChain) : Int × Int :=
  (nc.nodes.headD 0, nc.nodes.getLastD 0)

/-- `NodeChain::couple` from `src/graph/src/lib.rs` lines 149-179. -/
def couple (a b : NodeChain) : Option NodeChain :=
  if a.oneway ≠ b.oneway ∨ a.category ≠ b.category ∨ a.lanes ≠ b.lanes then
    none
  else
    let se := a.ends
    let oe := b.ends
    let newNodes : Option (List Int) :=
      if se.1 = oe.1 then some ((a.nodes.drop 1).reverse ++ b.nodes)
      else if se.1 = oe.2 then some (b.nodes ++ a.nodes.drop 1)
      else if se.2 = oe.1 then some (a.nodes ++ b.nodes.drop 1)
      else if se.2 = oe.2 then some (a.nodes.dropLast ++ b.nodes.reverse)
      else none
    newNodes.map (fun ns =>
      { wayId := none
        nodes := ns
        category := a.category
        lanes := a.lanes
        oneway := a.oneway
        maxspeed := a.maxspeed })

end NodeChain

/-! ## `ChainStorage` -/

structure ChainStorage where
  edges : List (Int × NodeChain)
  vertice : List Int
  deriving DecidableEq, Repr

namespace ChainStorage

/-- `ChainStorage::new`. -/
def new (vertice : List Int) : ChainStorage :=
  { edges := [], vertice := vertice }

/-- `ChainStorage::remove`: drop the chain's entries at both its ends. -/
def removeChain (st : ChainStorage) (nc : NodeChain) : ChainStorage :=
  { st with edges := eraseA (eraseA st.edges nc.ends.1) nc.ends.2 }

/-- Outcome of one pass of the `for e in ends` loop body of
`ChainStorage::insert` at a single end `e`. -/
inductive EndStep where
  | pass
  | coupled (nc2 nc3 : NodeChain)
  | promote (e : Int) (nc2 : NodeChain)

/-- One iteration of the `for e in ends` loop of `ChainStorage::insert`:
a vertex end or an end with no stored chain falls through; a stored chain
either couples (giving `nc3`) or triggers late promotion of `e`. -/
def endStep (st : ChainStorage) (nc : NodeChain) (e : Int) : EndStep :=
  if memS st.vertice e then EndStep.pass
  else
    match lookupA st.edges e with
    | none => EndStep.pass
    | some nc2 =>
      match nc.couple nc2 with
      | some nc3 => EndStep.coupled nc2 nc3
      | none => EndStep.promote e nc2

/-- The fallback store step of `ChainStorage::insert`: register the chain
under each of its non-vertex ends. -/
def storeDangling (st : ChainStorage) (nc : NodeChain) : ChainStorage :=
  let st1 := if memS st.vertice nc.ends.1 then st
             else { st with edges := insertA st.edges nc.ends.1 nc }
  if memS st1.vertice nc.ends.2 then st1
  else { st1 with edges := insertA st1.edges nc.ends.2 nc }

/-- `ChainStorage::insert` (recursive; fuel-indexed, `none` = fuel ran
out).  Returns the emitted complete chains and the updated storage. -/
def insert : Nat → ChainStorage → NodeChain → Option (List NodeChain × ChainStorage)
  | 0, _, _ => none
  | Nat.succ fuel, st, nc =>
    if memS st.vertice nc.ends.1 ∧ memS st.vertice nc.ends.2 then
      some ([nc], st)
    else
      match endStep st nc nc.ends.1 with
      | EndStep.coupled nc2 nc3 => insert fuel (st.removeChain nc2) nc3
      | EndStep.promote e nc2 =>
        match insert fuel { st with vertice := insertS st.vertice e } nc with
        | none => none
        | some (r1, st2) =>
          match insert fuel st2 nc2 with
          | none => none
          | some (r2, st3) => some (r1 ++ r2, st3)
      | EndStep.pass =>
        match endStep st nc nc.ends.2 with
        | EndStep.coupled nc2 nc3 => insert fuel (st.removeChain nc2) nc3
        | EndStep.promote e nc2 =>
          match insert fuel { st with vertice := insertS st.vertice e } nc with
          | none => none
          | some (r1, st2) =>
            match insert fuel st2 nc2 with
            | none => none
            | some (r2, st3) => some (r1 ++ r2, st3)
        | EndStep.pass => some ([], st.storeDangling nc)

end ChainStorage

/-! ## Ways and `ChainStorage::insert_way` -/

/-- The `Way` record (`src/osmreader/src/objects.rs`): id, node refs, tags. -/
structure Way where
  id : Int
  nodes : List Int
  tags : List (String × String)
  deriving DecidableEq, Repr

/-- Tag lookup (`way.tags.get(key)`). -/
def tagGet : List (String × String) → String → Option String
  | [], _ => none
  | (k, v) :: rest, key => if key = k then some v else tagGet rest key

/-- The splitting loop of `ChainStorage::insert_way`: walk the node list
with cut index `prev_i`, emitting a candidate chain `nodes[prev_i..=cur_i]`
whenever `cur_i > prev_i ∧ nodes[cur_i] ∈ vertice`, or `cur_i = end`.
`endIdx` is Rust's `way.nodes.len() - 1` (`Nat` subtraction here; Rust
underflows on an empty way, where the loop body never runs anyway). -/
def splitLoop (vertice : List Int) (wayId : Int) (allNodes : List Int)
    (cat : RoadCat) (ow : OneWay) (ms : MaxSpeed) (endIdx : Nat) :
    List (Nat × Int) → Nat → List NodeChain → List NodeChain
  | [], _, res => res
  | (curI, node) :: rest, prevI, res =>
    if (prevI < curI ∧ memS vertice node = true) ∨ curI = endIdx then
      let newNc : NodeChain :=
        { wayId := some wayId
          nodes := (allNodes.drop prevI).take (curI + 1 - prevI)
          category := cat, lanes := 1, oneway := ow, maxspeed := ms }
      splitLoop vertice wayId allNodes cat ow ms endIdx rest curI (res ++ [newNc])
    else
      splitLoop vertice wayId allNodes cat ow ms endIdx rest prevI res

/-- Feed each candidate chain to `insert`, concatenating emissions
(`res.into_iter().map(|i| self.insert(i)).flatten().collect()`). -/
def insertAll (fuel : Nat) : ChainStorage → List NodeChain →
    Option (List NodeChain × ChainStorage)
  | st, [] => some ([], st)
  | st, nc :: rest =>
    match ChainStorage.insert fuel st nc with
    | none => none
    | some (r1, st1) =>
      match insertAll fuel st1 rest with
      | none => none
      | some (r2, st2) => some (r1 ++ r2, st2)

/-- `ChainStorage::insert_way` (`src/graph/src/lib.rs` lines 204-225). -/
def ChainStorage.insertWay (fuel : Nat) (st : ChainStorage) (w : Way) :
    Option (List NodeChain × ChainStorage) :=
  let endIdx := w.nodes.length - 1
  match parseRoadCat (tagGet w.tags "highway") with
  | none => some ([], st)
  | some cat =>
    let ow := OneWay.fromTag (tagGet w.tags "oneway")
    let ms := maxSpeedFromTag (tagGet w.tags "maxspeed")
    let candidates :=
      splitLoop st.vertice w.id w.nodes cat ow ms endIdx w.nodes.enum 0 []
    insertAll fuel st candidates

/-! ## The vertex census of `find_vertice` (pure counting core)

`find_vertice` streams the file twice; its first pass increments a counter
for every node occurrence in `[&way.nodes, &way.nodes[1..len-1]].concat()`
of every way with a recognised `highway` tag, and the vertex set is the
set of counted nodes whose total is not 2.  The embedding works on a given
list of ways.  (Rust panics slicing `[1..len-1]` on ways with fewer than
two nodes; the theorems assume at least two.) -/

/-- The interior slice `way.nodes[1..len-1]`. -/
def interiorNodes (l : List Int) : List Int :=
  (l.drop 1).dropLast

/-- What one way adds to the counter of node `n`. -/
def wayCount (w : Way) (n : Int) : Nat :=
  if (parseRoadCat (tagGet w.tags "highway")).isSome then
    w.nodes.count n + (interiorNodes w.nodes).count n
  else 0

/-- The total of the `used_nodes` counter at `n` after all ways. -/
def usedNodesCount (ways : List Way) (n : Int) : Nat :=
  (ways.map (fun w => wayCount w n)).sum

/-- Membership in `find_vertice`'s output set: the node was counted at
least once and its total is not 2 (`filter(|(_, v)| *v != 2)`). -/
def isVertexNode (ways : List Way) (n : Int) : Bool :=
  usedNodesCount ways n ≠ 0 ∧ usedNodesCount ways n ≠ 2

/-- Written from the spec's words, for comparison with `wayCount` (claim
C4): an endpoint of a recognised way receives 1 count for that way, an
interior node receives 2 counts per way it appears in. -/
def specWayCount (w : Way) (n : Int) : Nat :=
  if (parseRoadCat (tagGet w.tags "highway")).isSome then
    (if n = w.nodes.headD 0 ∨ n = w.nodes.getLastD 0 then 1 else 0) +
      (if n ∈ interiorNodes w.nodes then 2 else 0)
  else 0

/-- The spec-side total count (claim C4). -/
def specNodesCount (ways : List Way) (n : Int) : Nat :=
  (ways.map (fun w => specWayCount w n)).sum

/-! ## `src/route`: graph model, isochrone, bidirectional A*, ALT -/

/-- Floor integer square root by upward search (kernel-reducible, unlike
`Nat.sqrt`): the largest `a` with `a * a ≤ n`. -/
def isqrtUp : Nat → Nat → Nat → Nat
  | 0, _, acc => acc
  | Nat.succ fuel, n, acc =>
    if (acc + 1) * (acc + 1) ≤ n then isqrtUp fuel n (acc + 1) else acc

def intSqrt (n : Nat) : Nat := isqrtUp n n 0

/-- Truncated euclidean distance between integer points: `as i64` of the
correctly rounded `f64` square root equals the floor integer square root
of the squared length for the coordinate magnitudes involved. -/
def eucDist (p q : Int × Int) : Int :=
  Int.ofNat (intSqrt (((p.1 - q.1) ^ 2 + (p.2 - q.2) ^ 2).toNat))

/-- `Edge` of `src/route/src/objects.rs`; the `LineString` geometry is
kept as its first and last point, which is all `add_edge` and the
routers consult. -/
structure REdge where
  v1 : Int
  v2 : Int
  weight : Int
  geomS : Int × Int
  geomE : Int × Int
  deriving DecidableEq, Repr

/-- `Vertex`: id, point, outgoing edges. -/
structure RVertex where
  id : Int
  geom : Int × Int
  edges : List REdge
  deriving DecidableEq, Repr

/-- `Graph { vertice: HashMap<VertexId, Vertex> }`. -/
def RGraph := List (Int × RVertex)
deriving instance DecidableEq, Repr for RGraph

/-- One direction of `Graph::add_edge`: record a vertex for `v1` (geom
from the first point of the edge), appending the edge. -/
def addEdgeOne (g : RGraph) (e : REdge) : RGraph :=
  match lookupA g e.v1 with
  | some v => insertA g e.v1 { v with edges := v.edges ++ [e] }
  | none => insertA g e.v1 { id := e.v1, geom := e.geomS, edges := [e] }

/-- `Graph::add_edge(edge, bidirectional)`: the reverse edge swaps the
endpoints and reverses the geometry. -/
def addEdge (g : RGraph) (e : REdge) (bidirectional : Bool) : RGraph :=
  let g1 := addEdgeOne g e
  if bidirectional then
    addEdgeOne g1 { v1 := e.v2, v2 := e.v1, weight := e.weight,
                    geomS := e.geomE, geomE := e.geomS }
  else g1

/-- The outgoing edges of `u`, empty when `u` is not in the graph. -/
def edgesOf (g : RGraph) (u : Int) : List REdge :=
  match lookupA g u with
  | some v => v.edges
  | none => []

/-- `VertexScore` (without the debug-only `visit_number`). -/
structure VertexScore where
  vid : Int
  fromV : Int
  costBefore : Int
  costRemain : Int
  totalCost : Int
  deriving DecidableEq, Repr

/-- `VertexScore::new`: `total_cost = cost_before + cost_remain`. -/
def VertexScore.new (vid fromV costBefore costRemain : Int) : VertexScore :=
  { vid := vid, fromV := fromV, costBefore := costBefore,
    costRemain := costRemain, totalCost := costBefore + costRemain }

/-- `BinaryHeap::pop` through the reversed `total_cost` order: an element
of minimal `total_cost` (leftmost among ties; Rust leaves the tie order
unspecified) together with the rest of the heap. -/
def popMin : List VertexScore → Option (VertexScore × List VertexScore)
  | [] => none
  | x :: xs =>
    match popMin xs with
    | none => some (x, [])
    | some (m, rest) =>
      if x.totalCost ≤ m.totalCost then some (x, xs) else some (m, x :: rest)

/-- `Reach g s v`: vertex `v` is reachable from `s` along stored edges. -/
inductive Reach (g : RGraph) (s : Int) : Int → Prop
  | refl : Reach g s s
  | step {u : Int} {e : REdge} : Reach g s u → e ∈ edgesOf g u → Reach g s e.v2

/-! ### `Isochrone::try_new` (`src/route/src/isochrone.rs`) -/

/-- The pop-settle-relax loop of `Isochrone::try_new`.  `maxDist` is the
unwrapped `max_dist` (`Cost(0)` when absent); a relaxation is pushed when
`max_dist > cost_before || max_dist == 0`.  `none` = fuel ran out or Rust
panicked (`expect` on a settled vertex missing from the graph). -/
def isoLoop (g : RGraph) (maxDist : Int) :
    Nat → List VertexScore → List (Int × Int) → Option (List (Int × Int))
  | 0, _, _ => none
  | Nat.succ fuel, heap, dist =>
    match popMin heap with
    | none => some dist
    | some (vs, heap1) =>
      if (lookupA dist vs.vid).isSome then isoLoop g maxDist fuel heap1 dist
      else
        let dist1 := insertA dist vs.vid vs.costBefore
        match lookupA g vs.vid with
        | none => none
        | some vtx =>
          let pushes := vtx.edges.filterMap (fun e =>
            if (lookupA dist1 e.v2).isSome then none
            else
              let other := VertexScore.new e.v2 vs.vid (vs.costBefore + e.weight) 0
              if maxDist > other.costBefore ∨ maxDist = 0 then some other
              else none)
          isoLoop g maxDist fuel (heap1 ++ pushes) dist1

/-- `Isochrone::try_new` reduced to its distance table; `none` also
covers the `Err` on a source missing from the graph. -/
def isoTryNew (fuel : Nat) (g : RGraph) (source : Int) (maxDist : Option Int) :
    Option (List (Int × Int)) :=
  match lookupA g source with
  | none => none
  | some _ =>
    isoLoop g (maxDist.getD 0) fuel [VertexScore.new source source 0 0] []

/-! ### Bidirectional A* (`src/route/src/bin/astar.rs`) -/

/-- `RoutingError` without its message payloads. -/
inductive RoutingError where
  | NoRoute
  | Programming
  deriving DecidableEq, Repr

/-- `BidirPath` without the graph back-reference. -/
structure BidirPath where
  forwardVisited : List (Int × VertexScore)
  backwardVisited : List (Int × VertexScore)
  meetVertex : Int
  deriving DecidableEq, Repr

/-- Relax all edges of a settled vertex on one side: look up each target
vertex (Rust `expect`s it, hence `Option`), skip the ones already in that
side's visited map, score the rest against the side's goal point. -/
def relaxAll (g : RGraph) (goalGeom : Int × Int) (visited : List (Int × VertexScore))
    (cur : VertexScore) : List REdge → Option (List VertexScore)
  | [] => some []
  | e :: rest =>
    match lookupA g e.v2 with
    | none => none
    | some vtx2 =>
      match relaxAll g goalGeom visited cur rest with
      | none => none
      | some tail =>
        if (lookupA visited vtx2.id).isSome then some tail
        else
          some (VertexScore.new vtx2.id cur.vid (cur.costBefore + e.weight)
            (eucDist vtx2.geom goalGeom) :: tail)

/-- The alternating loop of `AstarRouter::shortest_path`.  One iteration
is one forward pop-settle-relax followed by one backward one; a `continue`
on a stale forward pop skips the backward half of that iteration.  The
loop exits with `Err(NoRoute)` as soon as either heap is empty. -/
def astarLoop (g : RGraph) (sGeom tGeom : Int × Int) :
    Nat → List VertexScore → List VertexScore →
    List (Int × VertexScore) → List (Int × VertexScore) →
    Option (Except RoutingError BidirPath)
  | 0, _, _, _, _ => none
  | Nat.succ fuel, fHeap, bHeap, fVis, bVis =>
    match popMin fHeap with
    | none => some (Except.error RoutingError.NoRoute)
    | some (fvs, fHeap1) =>
      match popMin bHeap with
      | none => some (Except.error RoutingError.NoRoute)
      | some (bvs, bHeap1) =>
        if (lookupA fVis fvs.vid).isSome then
          astarLoop g sGeom tGeom fuel fHeap1 bHeap fVis bVis
        else
          let fVis1 := insertA fVis fvs.vid fvs
          if (lookupA bVis fvs.vid).isSome then
            some (Except.ok { forwardVisited := fVis1, backwardVisited := bVis,
                              meetVertex := fvs.vid })
          else
            match lookupA g fvs.vid with
            | none => none
            | some vtx1 =>
              match relaxAll g tGeom fVis1 fvs vtx1.edges with
              | none => none
              | some fPushes =>
                let fHeap2 := fHeap1 ++ fPushes
                if (lookupA bVis bvs.vid).isSome then
                  astarLoop g sGeom tGeom fuel fHeap2 bHeap1 fVis1 bVis
                else
                  let bVis1 := insertA bVis bvs.vid bvs
                  if (lookupA fVis1 bvs.vid).isSome then
                    some (Except.ok { forwardVisited := fVis1,
                                      backwardVisited := bVis1,
                                      meetVertex := bvs.vid })
                  else
                    match lookupA g bvs.vid with
                    | none => none
                    | some vtx2 =>
                      match relaxAll g sGeom bVis1 bvs vtx2.edges with
                      | none => none
                      | some bPushes =>
                        astarLoop g sGeom tGeom fuel fHeap2 (bHeap1 ++ bPushes)
                          fVis1 bVis1

/-- `AstarRouter::shortest_path`: seed both heaps with the euclidean
source-target distance as heuristic and run the alternating loop. -/
def shortestPath (fuel : Nat) (g : RGraph) (source target : Int) :
    Option (Except RoutingError BidirPath) :=
  match lookupA g source, lookupA g target with
  | some sv, some tv =>
    let dist := eucDist sv.geom tv.geom
    astarLoop g sv.geom tv.geom fuel
      [VertexScore.new source source 0 dist]
      [VertexScore.new target target 0 dist] [] []
  | _, _ => none

/-- `BidirPath::_collect_vertice`: follow `from` pointers from the meet
vertex until a self-parented score. -/
def collectVertice (visited : List (Int × VertexScore)) :
    Nat → Int → List Int → Option (List Int)
  | 0, _, _ => none
  | Nat.succ fuel, cur, acc =>
    match lookupA visited cur with
    | none => none
    | some vs =>
      if vs.vid = vs.fromV then some acc
      else collectVertice visited fuel vs.fromV (acc ++ [vs.fromV])

/-- `BidirPath::vertice`: reversed forward spine, then the backward spine
without its duplicated meet vertex. -/
def bidirVertice (fuel : Nat) (bp : BidirPath) : Option (List Int) :=
  match collectVertice bp.forwardVisited fuel bp.meetVertex [bp.meetVertex] with
  | none => none
  | some a =>
    match collectVertice bp.backwardVisited fuel bp.meetVertex [bp.meetVertex] with
    | none => none
    | some b => some (a.reverse ++ b.drop 1)

/-- `shortest_path` followed by `vertice_nums`. -/
def astarPathVertices (fuel : Nat) (g : RGraph) (source target : Int) :
    Option (Except RoutingError (List Int)) :=
  match shortestPath fuel g source target with
  | none => none
  | some (Except.error err) => some (Except.error err)
  | some (Except.ok bp) =>
    match bidirVertice fuel bp with
    | none => none
    | some l => some (Except.ok l)

/-! ### `AltRouter::estimate` (`src/route/src/bin/alt.rs`) -/

def LANDMARKS : Nat := 16

/-- `delta.iter().max().unwrap_or(&0)`. -/
def listMaxD : List Int → Int
  | [] => 0
  | x :: xs => xs.foldl max x

/-- `AltRouter::estimate`: each endpoint's landmark-distance vector, the
all-zero vector of length `LANDMARKS` when the endpoint is missing from
the table; the maximum pairwise absolute difference. -/
def altEstimate (landmarkDist : List (Int × List Int)) (v target : Int) : Int :=
  let l0 := List.replicate LANDMARKS 0
  let x1 := (lookupA landmarkDist v).getD l0
  let x2 := (lookupA landmarkDist target).getD l0
  let delta := (x1.zip x2).map (fun p => |p.2 - p.1|)
  listMaxD delta

/-- Written from the spec's words, for comparison with `altEstimate`
(claim C8): the maximum over landmark indices of the absolute difference
of the two distance vectors. -/
def specEstimate (x1 x2 : List Int) : Int :=
  listMaxD ((List.range (min x1.length x2.length)).map
    (fun i => |x2.getD i 0 - x1.getD i 0|))

/-! ### The concrete test graphs -/

/-- The 11-vertex grid of the isochrone unit test (`isochrone.rs`), all
edge weights 2, dummy geometry. -/
def gridGraph : RGraph :=
  [(1, 2), (2, 3), (2, 4), (3, 5),
   (4, 6), (6, 7), (6, 8), (7, 9),
   (8, 9), (8, 10), (9, 11)].foldl
    (fun g p => addEdge g { v1 := p.1, v2 := p.2, weight := 2,
                            geomS := (0, 0), geomE := (1, 1) } true) []

/-- Vertex coordinates of `graph_with_cul_de_sac` after its
`(c1*10, c2*20)` mapping. -/
def culCoords : List (Int × (Int × Int)) :=
  [(1, (10, 40)), (2, (50, 40)), (3, (30, 80)), (4, (90, 40)), (5, (130, 80)),
   (6, (170, 80)), (7, (130, 40)), (8, (210, 80)), (9, (210, 40)), (10, (130, 0))]

/-- `graph_with_cul_de_sac` (`src/route/src/graph.rs` lines 238-260):
each listed pair becomes a bidirectional edge whose weight is the
truncated euclidean length of its two-point geometry. -/
def culDeSac : RGraph :=
  [(3, 5), (5, 6), (6, 8), (3, 2), (5, 7),
   (6, 9), (1, 2), (2, 4), (7, 9), (7, 10)].foldl
    (fun g p =>
      match lookupA culCoords p.1, lookupA culCoords p.2 with
      | some c1, some c2 =>
        addEdge g { v1 := p.1, v2 := p.2, weight := eucDist c1 c2,
                    geomS := c1, geomE := c2 } true
      | _, _ => g) []

/-! ### Concrete instances used by counterexamples and witnesses -/

/-- Chain `X = [a, b] = [1, 2]`, category primary (claim C1). -/
def chainX : NodeChain :=
  { wayId := some 1, nodes := [1, 2], category := RoadCat.Primary,
    lanes := 1, oneway := OneWay.No, maxspeed := none }

/-- Chain `Y = [b, c] = [2, 3]`, category service (claim C1). -/
def chainY : NodeChain :=
  { wayId := some 2, nodes := [2, 3], category := RoadCat.Service,
    lanes := 1, oneway := OneWay.No, maxspeed := none }

/-- Storage after `insert(X)` into `new {a, c} = new {1, 3}`: `X` is
stored under its dangling end `b = 2`. -/
def lateSt1 : ChainStorage :=
  { edges := [(2, chainX)], vertice := [1, 3] }

/-- Storage after the late-promotion `insert(Y)`: `b = 2` was promoted,
but the entry at `2` was never removed. -/
def lateSt2 : ChainStorage :=
  { edges := [(2, chainX)], vertice := [1, 3, 2] }

/-- The chain `[1, 2]` (claim C2 counterexample). -/
def cexA : NodeChain :=
  { wayId := none, nodes := [1, 2], category := RoadCat.Primary,
    lanes := 1, oneway := OneWay.No, maxspeed := none }

/-- The chain `[2, 1]`: same attributes, both endpoints shared with
`cexA` (claim C2 counterexample). -/
def cexB : NodeChain :=
  { wayId := none, nodes := [2, 1], category := RoadCat.Primary,
    lanes := 1, oneway := OneWay.No, maxspeed := none }

/-- `[1, 2]` chain for the C2 witness. -/
def wChainA : NodeChain :=
  { wayId := none, nodes := [1, 2], category := RoadCat.Primary,
    lanes := 1, oneway := OneWay.No, maxspeed := none }

/-- `[2, 3]` chain sharing exactly the endpoint `2` with `wChainA`. -/
def wChainB : NodeChain :=
  { wayId := none, nodes := [2, 3], category := RoadCat.Primary,
    lanes := 1, oneway := OneWay.No, maxspeed := none }

/-- A way whose `highway` tag is not a recognised road (claim C3). -/
def badWay : Way :=
  { id := 1, nodes := [5, 6], tags := [("highway", "xyz")] }

/-- A single-node way with a recognised `highway` tag (claim C3). -/
def oneNodeWay : Way :=
  { id := 9, nodes := [5], tags := [("highway", "primary")] }

/-- The degenerate chain `insert_way` builds from `oneNodeWay`. -/
def oneNodeChain : NodeChain :=
  { wayId := some 9, nodes := [5], category := RoadCat.Primary,
    lanes := 1, oneway := OneWay.No, maxspeed := none }

/-- A closed ring way `[7, 8, 9, 7]` (claim C4). -/
def ringWay : Way :=
  { id := 3, nodes := [7, 8, 9, 7], tags := [("highway", "primary")] }

/-- A duplicate-free three-node way (claim C4 witness). -/
def censusWay : Way :=
  { id := 4, nodes := [11, 12, 13], tags := [("highway", "primary")] }

/-- Chain `[1, 2]` with maxspeed 50 (claim C10). -/
def msA : NodeChain :=
  { wayId := none, nodes := [1, 2], category := RoadCat.Primary,
    lanes := 1, oneway := OneWay.No, maxspeed := some 50 }

/-- Chain `[2, 3]` with maxspeed 90, other attributes equal (claim C10). -/
def msB : NodeChain :=
  { wayId := none, nodes := [2, 3], category := RoadCat.Primary,
    lanes := 1, oneway := OneWay.No, maxspeed := some 90 }

/-- Chain `[1, 2]` for the C5 witness. -/
def c5chain : NodeChain :=
  { wayId := some 4, nodes := [1, 2], category := RoadCat.Primary,
    lanes := 1, oneway := OneWay.No, maxspeed := none }

/-- Landmark table containing only vertex 7 (claim C8 counterexample). -/
def altTbl : List (Int × List Int) := [(7, [5])]

/-- Landmark table with both endpoints present (claim C8 witness). -/
def altTbl2 : List (Int × List Int) := [(7, [5]), (9, [12])]

/-- The distance table of the unbounded isochrone from vertex 1 on
`gridGraph` (claim C6 witness). -/
def gridResAll : List (Int × Int) :=
  [(1, 0), (2, 2), (3, 4), (4, 4), (5, 6), (6, 6),
   (7, 8), (8, 8), (9, 10), (10, 10), (11, 12)]

/-- The distance table of the `max_dist = 7` isochrone from vertex 1 on
`gridGraph` (claim C6 witness). -/
def gridRes7 : List (Int × Int) :=
  [(1, 0), (2, 2), (3, 4), (4, 4), (5, 6), (6, 6)]

/-- The stored grid edge from vertex 1 to vertex 2 (claim C6 witness). -/
def gridEdge12 : REdge :=
  { v1 := 1, v2 := 2, weight := 2, geomS := (0, 0), geomE := (1, 1) }

/-- Two disconnected bidirectional edges `1—2` and `3—4` (claim C9
witness). -/
def twoIslands : RGraph :=
  addEdge
    (addEdge [] { v1 := 1, v2 := 2, weight := 5, geomS := (0, 0), geomE := (10, 0) } true)
    { v1 := 3, v2 := 4, weight := 5, geomS := (100, 0), geomE := (110, 0) } true

/-- Key consistency of a graph's vertex map: each stored vertex carries
its own key as `id` (true of every graph `add_edge` builds). -/
def keysConsistent (g : RGraph) : Bool :=
  g.all (fun p => p.2.id = p.1)

/-! ## Helper lemmas about the container embeddings -/

theorem lookupA_mem {β : Type} {l : List (Int × β)} {k : Int} {v : β}
    (h : lookupA l k = some v) : (k, v) ∈ l := by
  induction l with
  | nil => simp [lookupA] at h
  | cons p rest ih =>
    obtain ⟨pk, pv⟩ := p
    rw [lookupA] at h
    by_cases hk : k = pk
    · rw [if_pos hk] at h
      injection h with h
      subst hk; subst h
      exact List.mem_cons_self _ _
    · rw [if_neg hk] at h
      exact List.mem_cons_of_mem _ (ih h)

theorem lookupA_insertA_self {β : Type} (l : List (Int × β)) (k : Int) (v : β) :
    lookupA (insertA l k v) k = some v := by
  induction l with
  | nil => simp [insertA, lookupA]
  | cons p rest ih =>
    by_cases hk : k = p.1
    · simp [insertA, lookupA, hk]
    · simp [insertA, lookupA, hk, ih]

theorem lookupA_insertA_mono {β : Type} {l : List (Int × β)} {k2 : Int}
    (k : Int) (v : β) (h : (lookupA l k2).isSome) :
    (lookupA (insertA l k v) k2).isSome := by
  induction l with
  | nil => simp [lookupA] at h
  | cons p rest ih =>
    rw [lookupA] at h
    by_cases hk2 : k2 = p.1
    · by_cases hk : k = p.1 <;> simp [insertA, lookupA, hk, hk2]
    · rw [if_neg hk2] at h
      by_cases hk : k = p.1
      · simp [insertA, lookupA, hk, hk2, h]
      · simp [insertA, lookupA, hk, hk2, ih h]

theorem lookupA_insertA_cases {β : Type} (l : List (Int × β)) (k k2 : Int) (v : β)
    (h : (lookupA (insertA l k v) k2).isSome) :
    k2 = k ∨ (lookupA l k2).isSome := by
  induction l with
  | nil =>
    simp only [insertA, lookupA] at h
    by_cases hk : k2 = k
    · exact Or.inl hk
    · rw [if_neg hk] at h; simp [lookupA] at h
  | cons p rest ih =>
    obtain ⟨pk, pv⟩ := p
    by_cases hk : k = pk
    · subst hk
      simp only [insertA, if_pos rfl, lookupA] at h ⊢
      by_cases hk2 : k2 = k
      · exact Or.inl hk2
      · rw [if_neg hk2] at h ⊢; exact Or.inr h
    · simp only [insertA, if_neg hk, lookupA] at h ⊢
      by_cases hk2 : k2 = pk
      · rw [if_pos hk2] at h ⊢; exact Or.inr h
      · rw [if_neg hk2] at h ⊢; exact ih h

theorem mem_insertA {β : Type} {l : List (Int × β)} {k : Int} {v : β} {p : Int × β}
    (h : p ∈ insertA l k v) : p = (k, v) ∨ p ∈ l := by
  induction l with
  | nil => simpa [insertA] using h
  | cons q rest ih =>
    by_cases hk : k = q.1
    · subst hk
      simp only [insertA, if_pos rfl] at h
      rcases List.mem_cons.mp h with h1 | h1
      · exact Or.inl (by simpa using h1)
      · exact Or.inr (List.mem_cons_of_mem _ h1)
    · simp only [insertA, if_neg hk] at h
      rcases List.mem_cons.mp h with h1 | h1
      · exact Or.inr (by simp [h1])
      · rcases ih h1 with h2 | h2
        · exact Or.inl h2
        · exact Or.inr (List.mem_cons_of_mem _ h2)

theorem popMin_eq_none {l : List VertexScore} (h : popMin l = none) : l = [] := by
  cases l with
  | nil => rfl
  | cons x xs =>
    cases hx : popMin xs with
    | none => simp [popMin, hx] at h
    | some pr =>
      obtain ⟨m, r⟩ := pr
      simp only [popMin, hx] at h
      by_cases hc : x.totalCost ≤ m.totalCost
      · rw [if_pos hc] at h; simp at h
      · rw [if_neg hc] at h; simp at h

theorem popMin_mem {h : List VertexScore} {m : VertexScore} {rest : List VertexScore}
    (hp : popMin h = some (m, rest)) : m ∈ h := by
  induction h generalizing m rest with
  | nil => simp [popMin] at hp
  | cons x xs ih =>
    cases hx : popMin xs with
    | none =>
      simp only [popMin, hx] at hp
      cases hp; exact List.mem_cons_self _ _
    | some pr =>
      obtain ⟨m2, rest2⟩ := pr
      simp only [popMin, hx] at hp
      by_cases hc : x.totalCost ≤ m2.totalCost
      · rw [if_pos hc] at hp; cases hp; exact List.mem_cons_self _ _
      · rw [if_neg hc] at hp; cases hp; exact List.mem_cons_of_mem _ (ih hx)

theorem popMin_cover {h : List VertexScore} {m : VertexScore} {rest : List VertexScore}
    (hp : popMin h = some (m, rest)) : ∀ x ∈ h, x = m ∨ x ∈ rest := by
  induction h generalizing m rest with
  | nil => simp [popMin] at hp
  | cons y ys ih =>
    cases hx : popMin ys with
    | none =>
      have hys : ys = [] := popMin_eq_none hx
      subst hys
      simp only [popMin] at hp
      cases hp
      intro x hxm
      rcases List.mem_cons.mp hxm with h1 | h1
      · exact Or.inl h1
      · simp at h1
    | some pr =>
      obtain ⟨m2, rest2⟩ := pr
      simp only [popMin, hx] at hp
      by_cases hc : y.totalCost ≤ m2.totalCost
      · rw [if_pos hc] at hp; cases hp
        intro x hxm
        rcases List.mem_cons.mp hxm with h1 | h1
        · exact Or.inl h1
        · exact Or.inr h1
      · rw [if_neg hc] at hp; cases hp
        intro x hxm
        rcases List.mem_cons.mp hxm with h1 | h1
        · exact Or.inr (by simp [h1])
        · rcases ih hx x h1 with h2 | h2
          · exact Or.inl h2
          · exact Or.inr (List.mem_cons_of_mem _ h2)

theorem keysConsistent_spec {g : RGraph} (hg : keysConsistent g = true) :
    ∀ k v, lookupA g k = some v → v.id = k := by
  intro k v h
  have hm := lookupA_mem h
  have := List.all_eq_true.mp hg (k, v) hm
  simpa using this

/-! ## Claim C10: `couple` ignores `maxspeed` -/

/-- C10: `NodeChain::couple` does not compare `maxspeed`: the chains
`msA = [1,2]` (maxspeed 50) and `msB = [2,3]` (maxspeed 90) share the
endpoint 2 and agree on oneway, category and lanes; `couple` succeeds,
and the merged chain carries the left operand's maxspeed 50, different
from the right operand's 90. -/
theorem C10_couple_ignores_maxspeed :
    (msA.couple msB).map (fun c => (c.nodes, c.maxspeed)) =
      some ([1, 2, 3], some 50)
    ∧ msA.oneway = msB.oneway ∧ msA.category = msB.category
    ∧ msA.lanes = msB.lanes ∧ msA.maxspeed ≠ msB.maxspeed := by
  refine ⟨rfl, rfl, rfl, rfl, ?_⟩
  decide

/-! ## Claim C5: `insert` on a chain with both endpoints in `vertice` -/

/-- C5: when both ends of a (nonempty) chain are vertices,
`ChainStorage::insert` returns exactly `[nc]` and the storage — both the
`edges` map and the `vertice` set — is returned unchanged, for every
amount of fuel; since the state is unchanged, repeating the call yields
the same result (idempotence). -/
theorem C5_insert_both_ends_vertices (fuel : Nat) (st : ChainStorage)
    (nc : NodeChain) (hne : nc.nodes ≠ [])
    (h1 : memS st.vertice nc.ends.1 = true)
    (h2 : memS st.vertice nc.ends.2 = true) :
    ChainStorage.insert (fuel + 1) st nc = some ([nc], st) := by
  rw [ChainStorage.insert]
  rw [if_pos ⟨h1, h2⟩]

/-- Witness for C5 at a concrete storage and chain. -/
theorem C5_witness :
    c5chain.nodes ≠ []
    ∧ memS (ChainStorage.new [1, 2]).vertice c5chain.ends.1 = true
    ∧ memS (ChainStorage.new [1, 2]).vertice c5chain.ends.2 = true
    ∧ ChainStorage.insert 4 (ChainStorage.new [1, 2]) c5chain =
        some ([c5chain], ChainStorage.new [1, 2]) :=
  ⟨by decide, by decide, by decide,
   C5_insert_both_ends_vertices 3 (ChainStorage.new [1, 2]) c5chain
     (by decide) (by decide) (by decide)⟩

/-! ## Claim C1: the late-promotion scenario and invariant I1 -/

/-- Counterexample to C1: inserting `X = [1,2]` (primary) into a storage
whose vertices are `{1, 3}` stores `X` under its dangling end 2; the
subsequent insert of `Y = [2,3]` (service) fails to couple, promotes 2 to
a vertex and emits `[Y, X]` — but the `edges` entry at 2 is never
removed, so after the operation `edges` is NOT empty at `b = 2` and the
key 2 of `edges` lies in `vertice`, violating invariant I1. -/
theorem C1_counterexample :
    ChainStorage.insert 10 (ChainStorage.new [1, 3]) chainX = some ([], lateSt1)
    ∧ ChainStorage.insert 10 lateSt1 chainY = some ([chainY, chainX], lateSt2)
    ∧ memS lateSt2.vertice 2 = true
    ∧ lookupA lateSt2.edges 2 = some chainX :=
  ⟨rfl, rfl, rfl, rfl⟩

/-- C1 as amended: in the late-promotion scenario the node `b = 2` is
promoted to a vertex and both `X` and `Y` are emitted as completed
single-edge chains (in the order `[Y, X]`), but the storage retains a
stale `edges` entry at `b`, so this `insert` does not preserve invariant
I1. -/
theorem C1_late_promotion_amended :
    ChainStorage.insert 10 lateSt1 chainY = some ([chainY, chainX], lateSt2)
    ∧ memS lateSt2.vertice 2 = true
    ∧ chainY.nodes = [2, 3] ∧ chainX.nodes = [1, 2]
    ∧ ¬ (∀ k, (lookupA lateSt2.edges k).isSome → memS lateSt2.vertice k = false) :=
  ⟨rfl, rfl, rfl, rfl, fun h => absurd (h 2 (by decide)) (by decide)⟩

/-! ## Claim C3: ways that contribute nothing -/

/-- C3 as amended: a way whose `highway` tag does not parse to a
recognised road category makes `insert_way` emit no chains and leave the
storage (both `edges` and `vertice`) unchanged.  (The nonemptiness
hypothesis keeps the statement inside Rust-defined behaviour:
`way.nodes.len() - 1` underflows on an empty way.)  The "fewer than 2
nodes" half of the original claim is false — see the counterexample. -/
theorem C3_unrecognized_way_amended (fuel : Nat) (st : ChainStorage) (w : Way)
    (hcat : parseRoadCat (tagGet w.tags "highway") = none)
    (hne : w.nodes ≠ []) :
    ChainStorage.insertWay fuel st w = some ([], st) := by
  rw [ChainStorage.insertWay, hcat]

/-- Witness for C3 at a concrete unrecognised way. -/
theorem C3_witness :
    parseRoadCat (tagGet badWay.tags "highway") = none
    ∧ badWay.nodes ≠ []
    ∧ ChainStorage.insertWay 10 lateSt1 badWay = some ([], lateSt1) :=
  ⟨rfl, by decide,
   C3_unrecognized_way_amended 10 lateSt1 badWay rfl (by decide)⟩

/-- Counterexample to C3: a single-node way (fewer than 2 nodes) with a
recognised `highway` tag does contribute — inserted into a storage whose
vertex set contains its node, `insert_way` emits the degenerate one-node
chain. -/
theorem C3_counterexample :
    oneNodeWay.nodes.length < 2
    ∧ parseRoadCat (tagGet oneNodeWay.tags "highway") = some RoadCat.Primary
    ∧ ChainStorage.insertWay 10 (ChainStorage.new [5]) oneNodeWay =
        some ([oneNodeChain], ChainStorage.new [5])
    ∧ ([oneNodeChain] : List NodeChain) ≠ [] :=
  ⟨by decide, rfl, rfl, by decide⟩

/-! ## Claim C8: the ALT heuristic -/

theorem zip_absdiff_eq_range (x1 : List Int) :
    ∀ x2 : List Int,
      (x1.zip x2).map (fun p => |p.2 - p.1|) =
        (List.range (min x1.length x2.length)).map
          (fun i => |x2.getD i 0 - x1.getD i 0|) := by
  induction x1 with
  | nil => intro x2; simp
  | cons a as ih =>
    intro x2
    cases x2 with
    | nil => simp
    | cons b bs =>
      simp only [List.zip_cons_cons, List.map_cons, List.length_cons,
        Nat.succ_min_succ, List.range_succ_eq_map, List.map_map]
      refine congrArg₂ _ ?_ ?_
      · simp
      · rw [ih bs]
        refine List.map_congr_left ?_
        intro i _
        simp [Function.comp, List.getD_cons_succ]

theorem specEstimate_eq_zip (x1 x2 : List Int) :
    specEstimate x1 x2 = listMaxD ((x1.zip x2).map (fun p => |p.2 - p.1|)) := by
  rw [specEstimate, zip_absdiff_eq_range]

/-- C8 as amended: when both endpoints are in the landmark table,
`AltRouter::estimate` is the maximum over landmarks of the absolute
distance difference; when exactly one endpoint is missing, its vector is
replaced by the all-zero vector of length `LANDMARKS = 16` — so the
result is the maximum landmark distance of the present endpoint (over
the first 16 landmarks), not 0; only when both endpoints are missing
does the estimate fall back to 0. -/
theorem C8_estimate_amended :
    (∀ tbl v t x1 x2, lookupA tbl v = some x1 → lookupA tbl t = some x2 →
        altEstimate tbl v t = specEstimate x1 x2)
    ∧ (∀ tbl v t x2, lookupA tbl v = none → lookupA tbl t = some x2 →
        altEstimate tbl v t = specEstimate (List.replicate LANDMARKS 0) x2)
    ∧ (∀ tbl v t x1, lookupA tbl v = some x1 → lookupA tbl t = none →
        altEstimate tbl v t = specEstimate x1 (List.replicate LANDMARKS 0))
    ∧ (∀ tbl v t, lookupA tbl v = none → lookupA tbl t = none →
        altEstimate tbl v t = 0) := by
  refine ⟨?_, ?_, ?_, ?_⟩
  · intro tbl v t x1 x2 hv ht
    rw [altEstimate, hv, ht, specEstimate_eq_zip]
    simp only [Option.getD_some, Option.getD_none]
  · intro tbl v t x2 hv ht
    rw [altEstimate, hv, ht, specEstimate_eq_zip]
    simp only [Option.getD_some, Option.getD_none]
  · intro tbl v t x1 hv ht
    rw [altEstimate, hv, ht, specEstimate_eq_zip]
    simp only [Option.getD_some, Option.getD_none]
  · intro tbl v t hv ht
    rw [altEstimate, hv, ht]
    decide

/-- Witness for C8 at a table containing both endpoints. -/
theorem C8_witness :
    lookupA altTbl2 9 = some [12] ∧ lookupA altTbl2 7 = some [5]
    ∧ altEstimate altTbl2 9 7 = specEstimate [12] [5]
    ∧ specEstimate [12] [5] = 7 :=
  ⟨rfl, rfl, C8_estimate_amended.1 altTbl2 9 7 [12] [5] rfl rfl, rfl⟩

/-- Counterexample to C8: with the table `altTbl = [(7, [5])]` the
endpoint 1 is missing, yet `estimate(1, 7) = 5 ≠ 0` — the claimed
fall-back to 0 on a missing endpoint does not happen. -/
theorem C8_fallback_counterexample :
    lookupA altTbl 1 = none ∧ (lookupA altTbl 7).isSome = true
    ∧ altEstimate altTbl 1 7 = 5 ∧ (5 : Int) ≠ 0 :=
  ⟨rfl, rfl, rfl, by decide⟩

/-! ## Claim C4: the vertex census -/

theorem exists_two_le_decomp {l : List Int} (h : 2 ≤ l.length) :
    ∃ x m y, l = x :: (m ++ [y]) := by
  cases l with
  | nil => simp at h
  | cons x t =>
    rcases List.eq_nil_or_concat t with h1 | ⟨m, y, h1⟩
    · subst h1; simp at h
    · exact ⟨x, m, y, by rw [h1, List.concat_eq_append]⟩

/-- The per-way counting core: on a duplicate-free way of length ≥ 2 the
implementation's count (full list plus interior slice) equals the
spec-side count (endpoint 1, interior 2). -/
theorem wayCount_eq_spec (w : Way) (n : Int) (hn : w.nodes.Nodup)
    (h2 : 2 ≤ w.nodes.length) : wayCount w n = specWayCount w n := by
  rw [wayCount, specWayCount]
  by_cases hrec : (parseRoadCat (tagGet w.tags "highway")).isSome
  · rw [if_pos hrec, if_pos hrec]
    obtain ⟨x, m, y, hl⟩ := exists_two_le_decomp h2
    rw [hl] at hn ⊢
    rw [List.nodup_cons, List.nodup_append] at hn
    obtain ⟨hxmy, hm, -, hdisj⟩ := hn
    have hxm : x ∉ m := fun hc => hxmy (List.mem_append_left _ hc)
    have hxy : x ≠ y := fun hc => hxmy (by simp [hc])
    have hym : y ∉ m := fun hc => hdisj hc (by simp)
    have hint : interiorNodes (x :: (m ++ [y])) = m := by
      simp [interiorNodes, List.dropLast_concat]
    have hhead : (x :: (m ++ [y])).headD 0 = x := rfl
    have hlast : (x :: (m ++ [y])).getLastD 0 = y := by
      rw [List.getLastD_cons, List.getLastD_concat]
    rw [hint, hhead, hlast]
    simp only [List.count_cons, List.count_append, List.count_singleton,
      beq_iff_eq]
    by_cases hx : n = x
    · have hy2 : ¬(y = n) := fun hc => hxy (hx ▸ hc.symm)
      have hmem : n ∉ m := hx ▸ hxm
      rw [List.count_eq_zero.mpr hmem]
      rw [if_neg hy2, if_pos hx.symm, if_pos (Or.inl hx), if_neg hmem]
      simp
    · by_cases hy : n = y
      · have hmem : n ∉ m := hy ▸ hym
        have hx2 : ¬(x = n) := fun hc => hx hc.symm
        rw [List.count_eq_zero.mpr hmem]
        rw [if_pos hy.symm, if_neg hx2, if_pos (Or.inr hy), if_neg hmem]
        simp
      · have hx2 : ¬(x = n) := fun hc => hx hc.symm
        have hy2 : ¬(y = n) := fun hc => hy hc.symm
        have hor : ¬(n = x ∨ n = y) := by
          rintro (hc | hc)
          · exact hx hc
          · exact hy hc
        by_cases hmem : n ∈ m
        · rw [List.count_eq_one_of_mem hm hmem]
          rw [if_neg hy2, if_neg hx2, if_neg hor, if_pos hmem]
          simp
        · rw [List.count_eq_zero.mpr hmem]
          rw [if_neg hy2, if_neg hx2, if_neg hor, if_neg hmem]
          simp
  · rw [if_neg hrec, if_neg hrec]

/-- C4 as amended: the implementation counts one increment per occurrence
of a node in a way's full node list plus one per occurrence in its
interior slice.  For recognised ways without repeated nodes this agrees
with the spec's reading (endpoints 1 per way, interior nodes 2 per way),
and a node goes to the vertex set iff it was counted at all and its
total is not 2.  (For ways with repeated nodes — e.g. closed rings — the
spec's reading is wrong; see the counterexample.) -/
theorem C4_census_amended (ways : List Way) (n : Int)
    (h : ∀ w ∈ ways, (parseRoadCat (tagGet w.tags "highway")).isSome = true →
          w.nodes.Nodup ∧ 2 ≤ w.nodes.length) :
    usedNodesCount ways n = specNodesCount ways n
    ∧ (isVertexNode ways n = true ↔
        (specNodesCount ways n ≠ 2 ∧ specNodesCount ways n ≠ 0)) := by
  have hcount : usedNodesCount ways n = specNodesCount ways n := by
    rw [usedNodesCount, specNodesCount]
    induction ways with
    | nil => rfl
    | cons w rest ih =>
      simp only [List.map_cons, List.sum_cons]
      have hw : wayCount w n = specWayCount w n := by
        by_cases hrec : (parseRoadCat (tagGet w.tags "highway")).isSome
        · obtain ⟨hnd, h2⟩ := h w (List.mem_cons_self _ _) hrec
          exact wayCount_eq_spec w n hnd h2
        · rw [wayCount, specWayCount]
          rw [if_neg hrec, if_neg hrec]
      rw [hw, ih (fun w2 hw2 => h w2 (List.mem_cons_of_mem _ hw2))]
  refine ⟨hcount, ?_⟩
  rw [isVertexNode]
  rw [hcount]
  constructor
  · intro hb
    have := of_decide_eq_true hb
    exact ⟨this.2, this.1⟩
  · intro hp
    exact decide_eq_true ⟨hp.2, hp.1⟩

/-- Witness for C4 at a single duplicate-free way and its middle node. -/
theorem C4_witness :
    (∀ w ∈ [censusWay],
        (parseRoadCat (tagGet w.tags "highway")).isSome = true →
          w.nodes.Nodup ∧ 2 ≤ w.nodes.length)
    ∧ usedNodesCount [censusWay] 12 = specNodesCount [censusWay] 12
    ∧ (isVertexNode [censusWay] 12 = true ↔
        (specNodesCount [censusWay] 12 ≠ 2 ∧ specNodesCount [censusWay] 12 ≠ 0)) := by
  have hyp : ∀ w ∈ [censusWay],
      (parseRoadCat (tagGet w.tags "highway")).isSome = true →
        w.nodes.Nodup ∧ 2 ≤ w.nodes.length := by
    intro w hw _
    have hwe : w = censusWay := by simpa using hw
    subst hwe
    exact ⟨by decide, by decide⟩
  exact ⟨hyp, (C4_census_amended [censusWay] 12 hyp).1,
    (C4_census_amended [censusWay] 12 hyp).2⟩

/-- Counterexample to C4: in the closed ring way `[7, 8, 9, 7]` the node
7 is an endpoint of the way, yet it receives 2 counts for that one way,
not the claimed 1; with the claimed count (1 ≠ 2) node 7 would be a
vertex, but `find_vertice` does not place it in the vertex set. -/
theorem C4_counterexample :
    usedNodesCount [ringWay] 7 = 2
    ∧ specNodesCount [ringWay] 7 = 1
    ∧ isVertexNode [ringWay] 7 = false
    ∧ specNodesCount [ringWay] 7 ≠ 2 :=
  ⟨rfl, rfl, rfl, by decide⟩

/-! ## Claim C2: `couple` on chains sharing an endpoint -/

/-- `couple` with matching attributes reduces to the four-way endpoint
match. -/
theorem couple_eq_of_attrs (a b : NodeChain) (how : a.oneway = b.oneway)
    (hcat : a.category = b.category) (hlan : a.lanes = b.lanes) :
    a.couple b =
      (if a.ends.1 = b.ends.1 then some ((a.nodes.drop 1).reverse ++ b.nodes)
       else if a.ends.1 = b.ends.2 then some (b.nodes ++ a.nodes.drop 1)
       else if a.ends.2 = b.ends.1 then some (a.nodes ++ b.nodes.drop 1)
       else if a.ends.2 = b.ends.2 then some (a.nodes.dropLast ++ b.nodes.reverse)
       else none).map
        (fun ns =>
          { wayId := none, nodes := ns, category := a.category,
            lanes := a.lanes, oneway := a.oneway, maxspeed := a.maxspeed }) := by
  have hattr : ¬(a.oneway ≠ b.oneway ∨ a.category ≠ b.category ∨ a.lanes ≠ b.lanes) := by
    push_neg
    exact ⟨how, hcat, hlan⟩
  unfold NodeChain.couple
  rw [if_neg hattr]

/-- C2 as amended: for chains `a`, `b` with equal oneway, category and
lanes, each individually duplicate-free with at least two nodes, sharing
exactly one node `s` which is an endpoint of both, `couple` succeeds and
the resulting node sequence is a simple path containing every node of
`a` and of `b` exactly once (in particular the shared endpoint appears
exactly once).  The original claim's "share at least one endpoint" is too
weak: chains sharing both endpoints couple into a non-simple walk — see
the counterexample. -/
theorem C2_couple_amended (a b : NodeChain) (s : Int)
    (how : a.oneway = b.oneway) (hcat : a.category = b.category)
    (hlan : a.lanes = b.lanes)
    (hna : a.nodes.Nodup) (hnb : b.nodes.Nodup)
    (h2a : 2 ≤ a.nodes.length) (h2b : 2 ≤ b.nodes.length)
    (hsa : s ∈ a.nodes) (hsb : s ∈ b.nodes)
    (huniq : ∀ x, x ∈ a.nodes → x ∈ b.nodes → x = s)
    (henda : s = a.nodes.headD 0 ∨ s = a.nodes.getLastD 0)
    (hendb : s = b.nodes.headD 0 ∨ s = b.nodes.getLastD 0) :
    ∃ c, a.couple b = some c ∧ c.nodes.Nodup ∧
      ∀ x, x ∈ c.nodes ↔ (x ∈ a.nodes ∨ x ∈ b.nodes) := by
  obtain ⟨a0, am, a1, hA⟩ := exists_two_le_decomp h2a
  obtain ⟨b0, bm, b1, hB⟩ := exists_two_le_decomp h2b
  -- Nodup components of a
  have hna2 := hna
  rw [hA, List.nodup_cons] at hna2
  obtain ⟨ha0, hrestA⟩ := hna2
  have ha01 : a0 ≠ a1 := fun hc => ha0 (by simp [hc])
  have ha0m : a0 ∉ am := fun hc => ha0 (List.mem_append_left _ hc)
  have hrestA2 := hrestA
  rw [List.nodup_append] at hrestA2
  obtain ⟨hamnd, -, hadisj⟩ := hrestA2
  have ha1m : a1 ∉ am := fun hc => hadisj hc (by simp)
  -- Nodup components of b
  have hnb2 := hnb
  rw [hB, List.nodup_cons] at hnb2
  obtain ⟨hb0, hrestB⟩ := hnb2
  have hb01 : b0 ≠ b1 := fun hc => hb0 (by simp [hc])
  have hb0m : b0 ∉ bm := fun hc => hb0 (List.mem_append_left _ hc)
  have hrestB2 := hrestB
  rw [List.nodup_append] at hrestB2
  obtain ⟨hbmnd, -, hbdisj⟩ := hrestB2
  have hb1m : b1 ∉ bm := fun hc => hbdisj hc (by simp)
  -- ends and slices
  have hAe1 : a.ends.1 = a0 := by
    show a.nodes.headD 0 = a0
    rw [hA]
    rfl
  have hAe2 : a.ends.2 = a1 := by
    show a.nodes.getLastD 0 = a1
    rw [hA, List.getLastD_cons, List.getLastD_concat]
  have hBe1 : b.ends.1 = b0 := by
    show b.nodes.headD 0 = b0
    rw [hB]
    rfl
  have hBe2 : b.ends.2 = b1 := by
    show b.nodes.getLastD 0 = b1
    rw [hB, List.getLastD_cons, List.getLastD_concat]
  have hdropA : a.nodes.drop 1 = am ++ [a1] := by
    rw [hA]
    rfl
  have hdropB : b.nodes.drop 1 = bm ++ [b1] := by
    rw [hB]
    rfl
  have hdlA : a.nodes.dropLast = a0 :: am := by
    rw [hA, show a0 :: (am ++ [a1]) = (a0 :: am) ++ [a1] by simp,
      List.dropLast_concat]
  have hha : a.nodes.headD 0 = a0 := by
    rw [hA]
    rfl
  have hla : a.nodes.getLastD 0 = a1 := by
    rw [hA, List.getLastD_cons, List.getLastD_concat]
  have hhb : b.nodes.headD 0 = b0 := by
    rw [hB]
    rfl
  have hlb : b.nodes.getLastD 0 = b1 := by
    rw [hB, List.getLastD_cons, List.getLastD_concat]
  rw [hha, hla] at henda
  rw [hhb, hlb] at hendb
  -- memberships of the endpoints
  have ha0A : a0 ∈ a.nodes := by rw [hA]; simp
  have ha1A : a1 ∈ a.nodes := by rw [hA]; simp
  have hb0B : b0 ∈ b.nodes := by rw [hB]; simp
  have hb1B : b1 ∈ b.nodes := by rw [hB]; simp
  have hmemA : ∀ x, x ∈ a.nodes ↔ (x = a0 ∨ x ∈ am ++ [a1]) := by
    intro x
    rw [hA, List.mem_cons]
  have hmemB : ∀ x, x ∈ b.nodes ↔ (x = b0 ∨ x ∈ bm ++ [b1]) := by
    intro x
    rw [hB, List.mem_cons]
  rw [couple_eq_of_attrs a b how hcat hlan, hAe1, hAe2, hBe1, hBe2]
  rcases henda with hsa0 | hsa1
  · rcases hendb with hsb0 | hsb1
    · -- s = a0 = b0, branch 1
      have hc1 : a0 = b0 := hsa0 ▸ hsb0
      rw [if_pos hc1, Option.map_some']
      refine ⟨_, rfl, ?_, ?_⟩
      · show ((a.nodes.drop 1).reverse ++ b.nodes).Nodup
        rw [hdropA]
        refine List.Nodup.append (List.nodup_reverse.mpr hrestA) hnb ?_
        intro x hx hxb
        rw [List.mem_reverse] at hx
        have hxa : x ∈ a.nodes := (hmemA x).mpr (Or.inr hx)
        have hxs : x = s := huniq x hxa hxb
        rw [hxs, hsa0] at hx
        exact ha0 hx
      · intro x
        show x ∈ (a.nodes.drop 1).reverse ++ b.nodes ↔ _
        rw [hdropA]
        constructor
        · intro hx
          rcases List.mem_append.mp hx with hx | hx
          · rw [List.mem_reverse] at hx
            exact Or.inl ((hmemA x).mpr (Or.inr hx))
          · exact Or.inr hx
        · intro hx
          rcases hx with hx | hx
          · rcases (hmemA x).mp hx with hx0 | hxr
            · refine List.mem_append.mpr (Or.inr ?_)
              rw [hx0, hc1]
              exact hb0B
            · exact List.mem_append.mpr (Or.inl (List.mem_reverse.mpr hxr))
          · exact List.mem_append.mpr (Or.inr hx)
    · -- s = a0 = b1, branch 2
      have hb0s : b0 ≠ s := fun hc => hb01 (hc.trans hsb1)
      have hc1 : ¬(a0 = b0) := fun hc => hb0s (hc ▸ hsa0).symm
      have hc2 : a0 = b1 := hsa0 ▸ hsb1
      rw [if_neg hc1, if_pos hc2, Option.map_some']
      refine ⟨_, rfl, ?_, ?_⟩
      · show (b.nodes ++ a.nodes.drop 1).Nodup
        rw [hdropA]
        refine List.Nodup.append hnb (by exact hrestA) ?_
        intro x hxb hx
        have hxa : x ∈ a.nodes := (hmemA x).mpr (Or.inr hx)
        have hxs : x = s := huniq x hxa hxb
        rw [hxs, hsa0] at hx
        exact ha0 hx
      · intro x
        show x ∈ b.nodes ++ a.nodes.drop 1 ↔ _
        rw [hdropA]
        constructor
        · intro hx
          rcases List.mem_append.mp hx with hx | hx
          · exact Or.inr hx
          · exact Or.inl ((hmemA x).mpr (Or.inr hx))
        · intro hx
          rcases hx with hx | hx
          · rcases (hmemA x).mp hx with hx0 | hxr
            · refine List.mem_append.mpr (Or.inl ?_)
              rw [hx0, hc2]
              exact hb1B
            · exact List.mem_append.mpr (Or.inr hxr)
          · exact List.mem_append.mpr (Or.inl hx)
  · rcases hendb with hsb0 | hsb1
    · -- s = a1 = b0, branch 3
      have ha0s : a0 ≠ s := fun hc => ha01 (hc.trans hsa1)
      have hc1 : ¬(a0 = b0) := fun hc => ha0s (huniq a0 ha0A (hc ▸ hb0B))
      have hc2 : ¬(a0 = b1) := fun hc => ha0s (huniq a0 ha0A (hc ▸ hb1B))
      have hc3 : a1 = b0 := hsa1 ▸ hsb0
      rw [if_neg hc1, if_neg hc2, if_pos hc3, Option.map_some']
      refine ⟨_, rfl, ?_, ?_⟩
      · show (a.nodes ++ b.nodes.drop 1).Nodup
        rw [hdropB]
        refine List.Nodup.append hna (by exact hrestB) ?_
        intro x hxa hx
        have hxb : x ∈ b.nodes := (hmemB x).mpr (Or.inr hx)
        have hxs : x = s := huniq x hxa hxb
        rw [hxs, hsb0] at hx
        exact hb0 hx
      · intro x
        show x ∈ a.nodes ++ b.nodes.drop 1 ↔ _
        rw [hdropB]
        constructor
        · intro hx
          rcases List.mem_append.mp hx with hx | hx
          · exact Or.inl hx
          · exact Or.inr ((hmemB x).mpr (Or.inr hx))
        · intro hx
          rcases hx with hx | hx
          · exact List.mem_append.mpr (Or.inl hx)
          · rcases (hmemB x).mp hx with hx0 | hxr
            · refine List.mem_append.mpr (Or.inl ?_)
              rw [hx0, ← hc3]
              exact ha1A
            · exact List.mem_append.mpr (Or.inr hxr)
    · -- s = a1 = b1, branch 4
      have ha0s : a0 ≠ s := fun hc => ha01 (hc.trans hsa1)
      have hb0s : b0 ≠ s := fun hc => hb01 (hc.trans hsb1)
      have hc1 : ¬(a0 = b0) := fun hc => ha0s (huniq a0 ha0A (hc ▸ hb0B))
      have hc2 : ¬(a0 = b1) := fun hc => ha0s (huniq a0 ha0A (hc ▸ hb1B))
      have hc3 : ¬(a1 = b0) := fun hc => hb0s ((huniq a1 ha1A (hc ▸ hb0B)) ▸ hc.symm)
      have hc4 : a1 = b1 := hsa1 ▸ hsb1
      rw [if_neg hc1, if_neg hc2, if_neg hc3, if_pos hc4, Option.map_some']
      refine ⟨_, rfl, ?_, ?_⟩
      · show (a.nodes.dropLast ++ b.nodes.reverse).Nodup
        rw [hdlA]
        refine List.Nodup.append ?_ (List.nodup_reverse.mpr hnb) ?_
        · rw [List.nodup_cons]
          exact ⟨ha0m, hamnd⟩
        · intro x hx hxb
          rw [List.mem_reverse] at hxb
          have hxa : x ∈ a.nodes := by
            rcases List.mem_cons.mp hx with hx0 | hxm
            · rw [hx0]
              exact ha0A
            · exact (hmemA x).mpr (Or.inr (List.mem_append_left _ hxm))
          have hxs : x = s := huniq x hxa hxb
          rcases List.mem_cons.mp hx with hx0 | hxm
          · exact ha0s (hx0 ▸ hxs)
          · rw [hxs, hsa1] at hxm
            exact ha1m hxm
      · intro x
        show x ∈ a.nodes.dropLast ++ b.nodes.reverse ↔ _
        rw [hdlA]
        constructor
        · intro hx
          rcases List.mem_append.mp hx with hx | hx
          · rcases List.mem_cons.mp hx with hx0 | hxm
            · exact Or.inl (hx0 ▸ ha0A)
            · exact Or.inl ((hmemA x).mpr (Or.inr (List.mem_append_left _ hxm)))
          · rw [List.mem_reverse] at hx
            exact Or.inr hx
        · intro hx
          rcases hx with hx | hx
          · rcases (hmemA x).mp hx with hx0 | hxr
            · exact List.mem_append.mpr (Or.inl (by rw [hx0]; exact List.mem_cons_self _ _))
            · rcases List.mem_append.mp hxr with hxm | hx1
              · exact List.mem_append.mpr (Or.inl (List.mem_cons_of_mem _ hxm))
              · refine List.mem_append.mpr (Or.inr ?_)
                rw [List.mem_reverse]
                rw [List.mem_singleton.mp hx1, hc4]
                exact hb1B
          · exact List.mem_append.mpr (Or.inr (List.mem_reverse.mpr hx))

/-- Witness for C2: `[1,2]` and `[2,3]` share exactly the endpoint 2. -/
theorem C2_witness :
    ∃ c, wChainA.couple wChainB = some c ∧ c.nodes.Nodup ∧
      ∀ x, x ∈ c.nodes ↔ (x ∈ wChainA.nodes ∨ x ∈ wChainB.nodes) :=
  C2_couple_amended wChainA wChainB 2 rfl rfl rfl (by decide) (by decide)
    (by decide) (by decide) (by decide) (by decide)
    (by
      intro x hx hy
      simp only [wChainA, wChainB, List.mem_cons, List.not_mem_nil, or_false] at hx hy
      rcases hx with rfl | rfl
      · rcases hy with h | h <;> omega
      · rfl)
    (by decide) (by decide)

/-- Counterexample to C2: the chains `[1,2]` and `[2,1]` have equal
attributes and share an endpoint (indeed both), `couple` succeeds, but
the result `[2,1,2]` is not a simple path — the shared endpoint 2
appears twice. -/
theorem C2_counterexample :
    cexA.oneway = cexB.oneway ∧ cexA.category = cexB.category
    ∧ cexA.lanes = cexB.lanes ∧ cexA.ends.1 = cexB.ends.2
    ∧ (cexA.couple cexB).map NodeChain.nodes = some [2, 1, 2]
    ∧ ¬ ([2, 1, 2] : List Int).Nodup :=
  ⟨rfl, rfl, rfl, rfl, rfl, by decide⟩

/-! ## Claim C6: the isochrone -/

theorem popMin_rest_subset {h : List VertexScore} {m : VertexScore}
    {rest : List VertexScore} (hp : popMin h = some (m, rest)) :
    ∀ x ∈ rest, x ∈ h := by
  induction h generalizing m rest with
  | nil => simp [popMin] at hp
  | cons y ys ih =>
    cases hx : popMin ys with
    | none =>
      simp only [popMin, hx] at hp
      cases hp
      intro x hxm
      simp at hxm
    | some pr =>
      obtain ⟨m2, rest2⟩ := pr
      simp only [popMin, hx] at hp
      by_cases hc : y.totalCost ≤ m2.totalCost
      · rw [if_pos hc] at hp; cases hp
        intro x hxm
        exact List.mem_cons_of_mem _ hxm
      · rw [if_neg hc] at hp; cases hp
        intro x hxm
        rcases List.mem_cons.mp hxm with h1 | h1
        · exact h1 ▸ List.mem_cons_self _ _
        · exact List.mem_cons_of_mem _ (ih hx x h1)

/-- With a positive bound, every heap entry and recorded distance stays
strictly below the bound through the loop, so every distance in the
result does. -/
theorem isoLoop_bound (g : RGraph) (d : Int) (hd : 0 < d) :
    ∀ fuel heap dist res,
      (∀ vs ∈ heap, vs.costBefore < d) →
      (∀ p ∈ dist, p.2 < d) →
      isoLoop g d fuel heap dist = some res →
      ∀ p ∈ res, p.2 < d := by
  intro fuel
  induction fuel with
  | zero =>
    intro heap dist res _ _ hrun
    simp [isoLoop] at hrun
  | succ fuel ih =>
    intro heap dist res hheap hdist hrun
    cases hpop : popMin heap with
    | none =>
      simp only [isoLoop, hpop] at hrun
      cases hrun
      exact hdist
    | some pr =>
      obtain ⟨vs, heap1⟩ := pr
      simp only [isoLoop, hpop] at hrun
      have hheap1 : ∀ x ∈ heap1, x.costBefore < d := fun x hx =>
        hheap x (popMin_rest_subset hpop x hx)
      by_cases hvis : (lookupA dist vs.vid).isSome
      · rw [if_pos hvis] at hrun
        exact ih heap1 dist res hheap1 hdist hrun
      · rw [if_neg hvis] at hrun
        cases hg : lookupA g vs.vid with
        | none => rw [hg] at hrun; cases hrun
        | some vtx =>
          rw [hg] at hrun
          refine ih _ _ res ?_ ?_ hrun
          · intro x hx
            rcases List.mem_append.mp hx with hx1 | hx1
            · exact hheap1 x hx1
            · rcases List.mem_filterMap.mp hx1 with ⟨e, he, hfe⟩
              by_cases hin : (lookupA (insertA dist vs.vid vs.costBefore) e.v2).isSome
              · rw [if_pos hin] at hfe
                cases hfe
              · rw [if_neg hin] at hfe
                by_cases hcond : d > (VertexScore.new e.v2 vs.vid
                    (vs.costBefore + e.weight) 0).costBefore ∨ d = 0
                · rw [if_pos hcond] at hfe
                  cases hfe
                  rcases hcond with hlt | h0
                  · exact hlt
                  · exact absurd h0 (by omega)
                · rw [if_neg hcond] at hfe
                  cases hfe
          · intro p hp
            rcases mem_insertA hp with hp1 | hp1
            · rw [hp1]
              exact hheap vs (popMin_mem hpop)
            · exact hdist p hp1

/-- Settled distances persist into the loop's result. -/
theorem isoLoop_mono (g : RGraph) (md : Int) :
    ∀ fuel heap dist res k,
      isoLoop g md fuel heap dist = some res →
      (lookupA dist k).isSome → (lookupA res k).isSome := by
  intro fuel
  induction fuel with
  | zero =>
    intro heap dist res k hrun
    simp [isoLoop] at hrun
  | succ fuel ih =>
    intro heap dist res k hrun hk
    cases hpop : popMin heap with
    | none =>
      simp only [isoLoop, hpop] at hrun
      cases hrun
      exact hk
    | some pr =>
      obtain ⟨vs, heap1⟩ := pr
      simp only [isoLoop, hpop] at hrun
      by_cases hvis : (lookupA dist vs.vid).isSome
      · rw [if_pos hvis] at hrun
        exact ih heap1 dist res k hrun hk
      · rw [if_neg hvis] at hrun
        cases hg : lookupA g vs.vid with
        | none => rw [hg] at hrun; cases hrun
        | some vtx =>
          rw [hg] at hrun
          exact ih _ _ res k hrun (lookupA_insertA_mono _ _ hk)

/-- In the unbounded loop every heap entry's vertex ends up settled. -/
theorem isoLoop_absorb (g : RGraph) :
    ∀ fuel heap dist res,
      isoLoop g 0 fuel heap dist = some res →
      ∀ vs ∈ heap, (lookupA res vs.vid).isSome := by
  intro fuel
  induction fuel with
  | zero =>
    intro heap dist res hrun
    simp [isoLoop] at hrun
  | succ fuel ih =>
    intro heap dist res hrun x hx
    cases hpop : popMin heap with
    | none =>
      have : heap = [] := popMin_eq_none hpop
      rw [this] at hx
      simp at hx
    | some pr =>
      obtain ⟨vs, heap1⟩ := pr
      simp only [isoLoop, hpop] at hrun
      by_cases hvis : (lookupA dist vs.vid).isSome
      · rw [if_pos hvis] at hrun
        rcases popMin_cover hpop x hx with h1 | h1
        · rw [h1]
          exact isoLoop_mono g 0 fuel heap1 dist res vs.vid hrun hvis
        · exact ih heap1 dist res hrun x h1
      · rw [if_neg hvis] at hrun
        cases hg : lookupA g vs.vid with
        | none => rw [hg] at hrun; cases hrun
        | some vtx =>
          rw [hg] at hrun
          rcases popMin_cover hpop x hx with h1 | h1
          · rw [h1]
            exact isoLoop_mono g 0 fuel _ _ res vs.vid hrun
              (by rw [lookupA_insertA_self]; rfl)
          · exact ih _ _ res hrun x (List.mem_append_left _ h1)

/-- The closure invariant: every settled vertex has each of its edge
targets settled or pending on the heap; at the end of the unbounded loop
the settled set is therefore closed under edges. -/
theorem isoLoop_closed (g : RGraph) :
    ∀ fuel heap dist res,
      isoLoop g 0 fuel heap dist = some res →
      (∀ u, (lookupA dist u).isSome → ∀ e ∈ edgesOf g u,
        (lookupA dist e.v2).isSome ∨ ∃ vs ∈ heap, vs.vid = e.v2) →
      ∀ u, (lookupA res u).isSome → ∀ e ∈ edgesOf g u,
        (lookupA res e.v2).isSome := by
  intro fuel
  induction fuel with
  | zero =>
    intro heap dist res hrun
    simp [isoLoop] at hrun
  | succ fuel ih =>
    intro heap dist res hrun hinv
    cases hpop : popMin heap with
    | none =>
      have hnil : heap = [] := popMin_eq_none hpop
      simp only [isoLoop, hpop] at hrun
      cases hrun
      intro u hu e he
      rcases hinv u hu e he with h1 | h1
      · exact h1
      · rw [hnil] at h1
        simp at h1
    | some pr =>
      obtain ⟨vs, heap1⟩ := pr
      simp only [isoLoop, hpop] at hrun
      by_cases hvis : (lookupA dist vs.vid).isSome
      · rw [if_pos hvis] at hrun
        refine ih heap1 dist res hrun ?_
        intro u hu e he
        rcases hinv u hu e he with h1 | ⟨w, hw, hwid⟩
        · exact Or.inl h1
        · rcases popMin_cover hpop w hw with h2 | h2
          · exact Or.inl (by rw [← hwid, h2]; exact hvis)
          · exact Or.inr ⟨w, h2, hwid⟩
      · rw [if_neg hvis] at hrun
        cases hg : lookupA g vs.vid with
        | none => rw [hg] at hrun; cases hrun
        | some vtx =>
          rw [hg] at hrun
          refine ih _ _ res hrun ?_
          intro u hu e he
          rcases lookupA_insertA_cases dist vs.vid u vs.costBefore hu with h1 | h1
          · -- u is the vertex just settled
            have hedges : edgesOf g u = vtx.edges := by
              rw [h1, edgesOf, hg]
            rw [hedges] at he
            by_cases hin : (lookupA (insertA dist vs.vid vs.costBefore) e.v2).isSome
            · exact Or.inl hin
            · refine Or.inr ⟨VertexScore.new e.v2 vs.vid (vs.costBefore + e.weight) 0,
                List.mem_append_right _ ?_, rfl⟩
              refine List.mem_filterMap.mpr ⟨e, he, ?_⟩
              rw [if_neg hin]
              exact if_pos (Or.inr trivial)
          · rcases hinv u h1 e he with h2 | ⟨w, hw, hwid⟩
            · exact Or.inl (lookupA_insertA_mono _ _ h2)
            · rcases popMin_cover hpop w hw with h2 | h2
              · refine Or.inl ?_
                rw [← hwid, h2, lookupA_insertA_self]
                rfl
              · exact Or.inr ⟨w, List.mem_append_left _ h2, hwid⟩

/-- C6: with `max_dist = d > 0` a relaxation is pushed only when its
`cost_before` is strictly below `d`, so every distance in the returned
table is strictly below `d`; with `max_dist` 0 or absent the search is
unbounded and settles every vertex reachable from the source; and on the
11-vertex grid with all weights 2 the isochrone from vertex 1 holds all
11 vertices unbounded and exactly 6 vertices with `max_dist = 7`. -/
theorem C6_isochrone :
    (∀ fuel g s d res, 0 < d → isoTryNew fuel g s (some d) = some res →
      ∀ p ∈ res, p.2 < d)
    ∧ (∀ fuel g s md res v, md.getD 0 = 0 → isoTryNew fuel g s md = some res →
        Reach g s v → (lookupA res v).isSome)
    ∧ (isoTryNew 100 gridGraph 1 none).map List.length = some 11
    ∧ (isoTryNew 100 gridGraph 1 (some 7)).map List.length = some 6 := by
  refine ⟨?_, ?_, by rfl, by rfl⟩
  · intro fuel g s d res hd hrun
    rw [isoTryNew] at hrun
    cases hg : lookupA g s with
    | none => rw [hg] at hrun; cases hrun
    | some sv =>
      rw [hg] at hrun
      refine isoLoop_bound g d hd fuel _ _ res ?_ ?_ hrun
      · intro x hx
        rcases List.mem_cons.mp hx with h1 | h1
        · rw [h1]
          exact hd
        · simp at h1
      · intro p hp
        simp at hp
  · intro fuel g s md res v hmd hrun hreach
    rw [isoTryNew] at hrun
    cases hg : lookupA g s with
    | none => rw [hg] at hrun; cases hrun
    | some sv =>
      rw [hg, hmd] at hrun
      induction hreach with
      | refl =>
        exact isoLoop_absorb g fuel _ _ res hrun
          (VertexScore.new s s 0 0) (List.mem_cons_self _ _)
      | step hu he ih =>
        exact isoLoop_closed g fuel _ _ res hrun
          (by intro u hu2 e2 he2; simp [lookupA] at hu2) _ ih _ he

/-- Witness for C6 applying the bound half at the concrete grid run and
the completeness half at a concrete reachability fact. -/
theorem C6_witness :
    ((0 : Int) < 7
      ∧ isoTryNew 100 gridGraph 1 (some 7) = some gridRes7
      ∧ ∀ p ∈ gridRes7, p.2 < 7)
    ∧ (isoTryNew 100 gridGraph 1 none = some gridResAll
      ∧ (lookupA gridResAll 2).isSome) := by
  have hreach : Reach gridGraph 1 gridEdge12.v2 :=
    @Reach.step gridGraph 1 1 gridEdge12 Reach.refl (by decide)
  exact ⟨⟨by decide, by rfl,
      C6_isochrone.1 100 gridGraph 1 7 gridRes7 (by decide) (by rfl)⟩,
    ⟨by rfl,
      C6_isochrone.2.1 100 gridGraph 1 none gridResAll 2 (by rfl) (by rfl) hreach⟩⟩

/-! ## Claim C7: bidirectional A* on the cul-de-sac graph -/

set_option maxRecDepth 8000 in
/-- C7: on the cul-de-sac graph of `graph_with_cul_de_sac`,
`shortest_path(2, 10)` succeeds and reconstructs the vertex sequence
`[2, 3, 5, 7, 10]`. -/
theorem C7_astar_cul_de_sac :
    astarPathVertices 200 culDeSac 2 10 = some (Except.ok [2, 3, 5, 7, 10]) := by
  rfl

/-! ## Claim C9: exhausted search yields `NoRoute` -/

/-- Every score produced by a relaxation round targets one of the
settled vertex's edges (under key-consistent vertex records). -/
theorem relaxAll_mem (g : RGraph) (goal : Int × Int)
    (vis : List (Int × VertexScore)) (cur : VertexScore)
    (hid : ∀ k v, lookupA g k = some v → v.id = k) :
    ∀ edges lst, relaxAll g goal vis cur edges = some lst →
      ∀ vs ∈ lst, ∃ e ∈ edges, vs.vid = e.v2 := by
  intro edges
  induction edges with
  | nil =>
    intro lst hrun vs hvs
    simp only [relaxAll] at hrun
    cases hrun
    simp at hvs
  | cons e rest ih =>
    intro lst hrun vs hvs
    simp only [relaxAll] at hrun
    cases hg2 : lookupA g e.v2 with
    | none => rw [hg2] at hrun; cases hrun
    | some vtx2 =>
      simp only [hg2] at hrun
      cases hrec : relaxAll g goal vis cur rest with
      | none => rw [hrec] at hrun; cases hrun
      | some tail =>
        simp only [hrec] at hrun
        by_cases hskip : (lookupA vis vtx2.id).isSome
        · rw [if_pos hskip] at hrun
          cases hrun
          rcases ih _ hrec vs hvs with ⟨e2, he2, hv2⟩
          exact ⟨e2, List.mem_cons_of_mem _ he2, hv2⟩
        · rw [if_neg hskip] at hrun
          cases hrun
          rcases List.mem_cons.mp hvs with h1 | h1
          · refine ⟨e, List.mem_cons_self _ _, ?_⟩
            rw [h1]
            exact hid e.v2 vtx2 hg2
          · rcases ih _ hrec vs h1 with ⟨e2, he2, hv2⟩
            exact ⟨e2, List.mem_cons_of_mem _ he2, hv2⟩

/-- The alternating loop invariant: everything on the forward side is
reachable from the source, everything on the backward side from the
target; if the two sides can never meet, any value the loop returns is
`NoRoute`. -/
theorem astarLoop_sep (g : RGraph) (s t : Int) (sG tG : Int × Int)
    (hid : ∀ k v, lookupA g k = some v → v.id = k)
    (hsep : ∀ v, Reach g s v → Reach g t v → False) :
    ∀ fuel fh bh fv bv r,
      (∀ vs ∈ fh, Reach g s vs.vid) →
      (∀ k, (lookupA fv k).isSome → Reach g s k) →
      (∀ vs ∈ bh, Reach g t vs.vid) →
      (∀ k, (lookupA bv k).isSome → Reach g t k) →
      astarLoop g sG tG fuel fh bh fv bv = some r →
      r = Except.error RoutingError.NoRoute := by
  intro fuel
  induction fuel with
  | zero =>
    intro fh bh fv bv r _ _ _ _ hrun
    simp [astarLoop] at hrun
  | succ fuel ih =>
    intro fh bh fv bv r hfh hfv hbh hbv hrun
    cases hpf : popMin fh with
    | none =>
      simp only [astarLoop, hpf] at hrun
      cases hrun
      rfl
    | some prf =>
      obtain ⟨fvs, fh1⟩ := prf
      cases hpb : popMin bh with
      | none =>
        simp only [astarLoop, hpf, hpb] at hrun
        cases hrun
        rfl
      | some prb =>
        obtain ⟨bvs, bh1⟩ := prb
        simp only [astarLoop, hpf, hpb] at hrun
        have hfh1 : ∀ vs ∈ fh1, Reach g s vs.vid := fun x hx =>
          hfh x (popMin_rest_subset hpf x hx)
        have hbh1 : ∀ vs ∈ bh1, Reach g t vs.vid := fun x hx =>
          hbh x (popMin_rest_subset hpb x hx)
        have hfvs : Reach g s fvs.vid := hfh fvs (popMin_mem hpf)
        have hbvs : Reach g t bvs.vid := hbh bvs (popMin_mem hpb)
        by_cases hstale : (lookupA fv fvs.vid).isSome
        · rw [if_pos hstale] at hrun
          exact ih fh1 bh fv bv r hfh1 hfv hbh hbv hrun
        · rw [if_neg hstale] at hrun
          have hfv1 : ∀ k, (lookupA (insertA fv fvs.vid fvs) k).isSome →
              Reach g s k := by
            intro k hk
            rcases lookupA_insertA_cases fv fvs.vid k fvs hk with h1 | h1
            · rw [h1]
              exact hfvs
            · exact hfv k h1
          by_cases hmeet : (lookupA bv fvs.vid).isSome
          · exact absurd (hbv fvs.vid hmeet) (fun hc => hsep fvs.vid hfvs hc)
          · rw [if_neg hmeet] at hrun
            cases hg1 : lookupA g fvs.vid with
            | none => rw [hg1] at hrun; cases hrun
            | some vtx1 =>
              simp only [hg1] at hrun
              cases hrel : relaxAll g tG (insertA fv fvs.vid fvs) fvs vtx1.edges with
              | none => rw [hrel] at hrun; cases hrun
              | some fPushes =>
                simp only [hrel] at hrun
                have hfh2 : ∀ vs ∈ fh1 ++ fPushes, Reach g s vs.vid := by
                  intro x hx
                  rcases List.mem_append.mp hx with h1 | h1
                  · exact hfh1 x h1
                  · rcases relaxAll_mem g tG _ fvs hid vtx1.edges fPushes hrel
                      x h1 with ⟨e, he, hv2⟩
                    rw [hv2]
                    refine Reach.step hfvs ?_
                    rw [edgesOf, hg1]
                    exact he
                by_cases hbstale : (lookupA bv bvs.vid).isSome
                · rw [if_pos hbstale] at hrun
                  exact ih _ bh1 _ bv r hfh2 hfv1 hbh1 hbv hrun
                · rw [if_neg hbstale] at hrun
                  have hbv1 : ∀ k, (lookupA (insertA bv bvs.vid bvs) k).isSome →
                      Reach g t k := by
                    intro k hk
                    rcases lookupA_insertA_cases bv bvs.vid k bvs hk with h1 | h1
                    · rw [h1]
                      exact hbvs
                    · exact hbv k h1
                  by_cases hmeet2 : (lookupA (insertA fv fvs.vid fvs) bvs.vid).isSome
                  · exact absurd (hfv1 bvs.vid hmeet2)
                      (fun hc => hsep bvs.vid hc hbvs)
                  · rw [if_neg hmeet2] at hrun
                    cases hg2 : lookupA g bvs.vid with
                    | none => rw [hg2] at hrun; cases hrun
                    | some vtx2 =>
                      simp only [hg2] at hrun
                      cases hrel2 : relaxAll g sG (insertA bv bvs.vid bvs) bvs
                          vtx2.edges with
                      | none => rw [hrel2] at hrun; cases hrun
                      | some bPushes =>
                        simp only [hrel2] at hrun
                        have hbh2 : ∀ vs ∈ bh1 ++ bPushes, Reach g t vs.vid := by
                          intro x hx
                          rcases List.mem_append.mp hx with h1 | h1
                          · exact hbh1 x h1
                          · rcases relaxAll_mem g sG _ bvs hid vtx2.edges bPushes
                              hrel2 x h1 with ⟨e, he, hv2⟩
                            rw [hv2]
                            refine Reach.step hbvs ?_
                            rw [edgesOf, hg2]
                            exact he
                        exact ih _ _ _ _ r hfh2 hfv1 hbh2 hbv1 hrun

/-- C9: on a graph with key-consistent vertex records, when no vertex is
reachable from both the source and the target (in particular when the
target is unreachable from the source in the bidirectionally loaded
graph), every terminating run of `shortest_path` returns the
`Err(NoRoute)` value — never a path. -/
theorem C9_noroute (g : RGraph) (s t : Int)
    (hid : ∀ k v, lookupA g k = some v → v.id = k)
    (hsep : ∀ v, Reach g s v → Reach g t v → False) :
    ∀ fuel r, shortestPath fuel g s t = some r →
      r = Except.error RoutingError.NoRoute := by
  intro fuel r hrun
  rw [shortestPath] at hrun
  cases hgs : lookupA g s with
  | none => rw [hgs] at hrun; cases hrun
  | some sv =>
    cases hgt : lookupA g t with
    | none => rw [hgs, hgt] at hrun; cases hrun
    | some tv =>
      rw [hgs, hgt] at hrun
      refine astarLoop_sep g s t sv.geom tv.geom hid hsep fuel _ _ [] [] r
        ?_ ?_ ?_ ?_ hrun
      · intro vs hvs
        rcases List.mem_cons.mp hvs with h1 | h1
        · rw [h1]
          exact Reach.refl
        · simp at h1
      · intro k hk
        simp [lookupA] at hk
      · intro vs hvs
        rcases List.mem_cons.mp hvs with h1 | h1
        · rw [h1]
          exact Reach.refl
        · simp at h1
      · intro k hk
        simp [lookupA] at hk

/-- Reachability from vertex 1 in the two-island graph stays on the left
island. -/
theorem reach_twoIslands_left (v : Int) (h : Reach twoIslands 1 v) :
    v = 1 ∨ v = 2 := by
  induction h with
  | refl => exact Or.inl rfl
  | step hu he ih =>
    rcases ih with h1 | h1
    · rw [h1] at he
      have hev : edgesOf twoIslands 1 =
          [{ v1 := 1, v2 := 2, weight := 5, geomS := (0, 0), geomE := (10, 0) }] := rfl
      rw [hev] at he
      rw [List.mem_singleton.mp he]
      exact Or.inr rfl
    · rw [h1] at he
      have hev : edgesOf twoIslands 2 =
          [{ v1 := 2, v2 := 1, weight := 5, geomS := (10, 0), geomE := (0, 0) }] := rfl
      rw [hev] at he
      rw [List.mem_singleton.mp he]
      exact Or.inl rfl

/-- Reachability from vertex 3 in the two-island graph stays on the
right island. -/
theorem reach_twoIslands_right (v : Int) (h : Reach twoIslands 3 v) :
    v = 3 ∨ v = 4 := by
  induction h with
  | refl => exact Or.inl rfl
  | step hu he ih =>
    rcases ih with h1 | h1
    · rw [h1] at he
      have hev : edgesOf twoIslands 3 =
          [{ v1 := 3, v2 := 4, weight := 5, geomS := (100, 0), geomE := (110, 0) }] := rfl
      rw [hev] at he
      rw [List.mem_singleton.mp he]
      exact Or.inr rfl
    · rw [h1] at he
      have hev : edgesOf twoIslands 4 =
          [{ v1 := 4, v2 := 3, weight := 5, geomS := (110, 0), geomE := (100, 0) }] := rfl
      rw [hev] at he
      rw [List.mem_singleton.mp he]
      exact Or.inl rfl

/-- Witness for C9: the disconnected pair (1, 3) of the two-island
graph. -/
theorem C9_witness :
    (∀ v, Reach twoIslands 1 v → Reach twoIslands 3 v → False)
    ∧ shortestPath 50 twoIslands 1 3 =
        some (Except.error RoutingError.NoRoute) := by
  have hid : ∀ k v, lookupA twoIslands k = some v → v.id = k :=
    keysConsistent_spec (by decide)
  have hsep : ∀ v, Reach twoIslands 1 v → Reach twoIslands 3 v → False := by
    intro v h1 h3
    rcases reach_twoIslands_left v h1 with rfl | rfl <;>
      rcases reach_twoIslands_right _ h3 with h | h <;> exact absurd h (by decide)
  refine ⟨hsep, ?_⟩
  have happ := C9_noroute twoIslands 1 3 hid hsep 50
    (Except.error RoutingError.NoRoute) (by rfl)
  rw [← happ]
  rfl

end RustRouting
